import Mathlib

/-!
Formal model of the Media Relay Core of the food-delivery-robot voice
client.  Audio samples are modelled as exact rationals, sample buffers as
lists of rationals, and PCM byte buffers as lists of natural numbers (one
entry per byte).  The definitions follow the TypeScript source in
simple-voice-client/src/RobotAudioBridge.tsx and the RobotTTSBridge
component in simple-voice-client/src/App.tsx.
-/

namespace MediaRelay

/-- Truncation of a rational toward zero.  This is the integer conversion
JavaScript applies when a number is stored through DataView.setInt16
(RobotAudioBridge.tsx, line 65). -/
def truncQ (q : ℚ) : ℤ := if q < 0 then ⌈q⌉ else ⌊q⌋

/-- Output length of the resampler (RobotAudioBridge.tsx, lines 36-37):
ratio = inputSampleRate / outputSampleRate and
outputLength = floor(inputLength / ratio). -/
def resampleOutLen (len inputSampleRate outputSampleRate : ℕ) : ℕ :=
  (⌊(len : ℚ) / ((inputSampleRate : ℚ) / (outputSampleRate : ℚ))⌋).toNat

/-- Lower source index read by the resampler (RobotAudioBridge.tsx, line 42):
srcIndexFloor = floor(i * ratio). -/
def srcIndexFloor (i inputSampleRate outputSampleRate : ℕ) : ℤ :=
  ⌊(i : ℚ) * ((inputSampleRate : ℚ) / (outputSampleRate : ℚ))⌋

/-- Upper source index read by the resampler (RobotAudioBridge.tsx, line 43):
srcIndexCeil = min(srcIndexFloor + 1, inputBuffer.length - 1). -/
def srcIndexCeil (i len inputSampleRate outputSampleRate : ℕ) : ℤ :=
  min (srcIndexFloor i inputSampleRate outputSampleRate + 1) ((len : ℤ) - 1)

/-- The resampler resampleAudio (RobotAudioBridge.tsx, lines 27-51).  If
the two rates are equal the input buffer is returned unchanged; otherwise
each output sample linearly interpolates between the two nearest input
samples, with the fractional part of the source index as the weight. -/
def resampleAudio (inputBuffer : List ℚ) (inputSampleRate outputSampleRate : ℕ) : List ℚ :=
  if inputSampleRate = outputSampleRate then inputBuffer
  else
    (List.range (resampleOutLen inputBuffer.length inputSampleRate outputSampleRate)).map fun (i : ℕ) =>
      let srcIndex : ℚ := (i : ℚ) * ((inputSampleRate : ℚ) / (outputSampleRate : ℚ))
      let t : ℚ := srcIndex - (srcIndexFloor i inputSampleRate outputSampleRate : ℚ)
      inputBuffer.getD (srcIndexFloor i inputSampleRate outputSampleRate).toNat 0 * (1 - t)
        + inputBuffer.getD (srcIndexCeil i inputBuffer.length inputSampleRate outputSampleRate).toNat 0 * t

/-- Clamping of one sample to the interval from -1 to 1
(RobotAudioBridge.tsx, line 62). -/
def clampSample (x : ℚ) : ℚ := max (-1) (min 1 x)

/-- Asymmetric scaling to the signed 16 bit range (RobotAudioBridge.tsx,
line 64): a negative clamped sample is multiplied by 0x8000 = 32768, a
nonnegative one by 0x7FFF = 32767. -/
def scaleSample (x : ℚ) : ℚ :=
  if clampSample x < 0 then clampSample x * 32768 else clampSample x * 32767

/-- The 16 bit integer value stored for one sample. -/
def pcm16Value (x : ℚ) : ℤ := truncQ (scaleSample x)

/-- The two bytes written for one sample, little endian
(RobotAudioBridge.tsx, line 65). -/
def pcm16Bytes (x : ℚ) : List ℕ :=
  [(Int.toNat (pcm16Value x % 65536)) % 256,
   (Int.toNat (pcm16Value x % 65536)) / 256]

/-- float32ToPCM16 (RobotAudioBridge.tsx, lines 56-69): writes two bytes
per sample, little endian, in input order. -/
def float32ToPCM16 : List ℚ → List ℕ
  | [] => []
  | x :: rest => pcm16Bytes x ++ float32ToPCM16 rest

/-- Reads two bytes back as the 16 bit little endian signed value they
encode; used to state what the encoder stores. -/
def decodeInt16LE (b0 b1 : ℕ) : ℤ :=
  if b0 + 256 * b1 < 32768 then ((b0 + 256 * b1 : ℕ) : ℤ)
  else ((b0 + 256 * b1 : ℕ) : ℤ) - 65536

/-- Modelled from the spec: no PCM decoder exists under src (playback
happens on the external robot device).  Spec sections 4.2 and 8 describe
the asymmetric scaling, so a stored value v decodes back to floating
point as v / 32768 when v is negative and v / 32767 otherwise. -/
def decodePCM16 (v : ℤ) : ℚ := if v < 0 then (v : ℚ) / 32768 else (v : ℚ) / 32767

/-- Peak amplitude of a frame (RobotAudioBridge.tsx, lines 191-195):
maxSample starts at 0 and is raised to each larger absolute sample. -/
def framePeak (inputData : List ℚ) : ℚ := inputData.foldl (fun m x => max m |x|) 0

/-- Observable state of the Audio Frame Pipeline: the cumulative byte
counter bytesSent, the buffers passed to the WebSocket send, the emitted
telemetry checkpoints, the number of resample and encode calls, and the
totalFrames counter of the audio callback. -/
structure PipelineState where
  bytesSent : ℕ
  sends : List (List ℕ)
  checkpoints : List ℕ
  resampleCalls : ℕ
  encodeCalls : ℕ
  totalFrames : ℕ
deriving DecidableEq

/-- The pipeline state at stream start. -/
def initPipeline : PipelineState := ⟨0, [], [], 0, 0, 0⟩

/-- sendAudioToRobot (RobotAudioBridge.tsx, lines 142-153): when the
socket is open the buffer is transmitted, the byte counter grows by its
byte length, and a checkpoint is emitted when
bytesSent % 51200 < pcmData.byteLength holds after the increment. -/
def sendAudioToRobot (wsOpen : Bool) (st : PipelineState) (pcmData : List ℕ) : PipelineState :=
  if wsOpen then
    { st with
      bytesSent := st.bytesSent + pcmData.length
      sends := st.sends ++ [pcmData]
      checkpoints :=
        if (st.bytesSent + pcmData.length) % 51200 < pcmData.length
        then st.checkpoints ++ [st.bytesSent + pcmData.length]
        else st.checkpoints }
  else st

/-- The onaudioprocess handler (RobotAudioBridge.tsx, lines 186-221):
count the frame, compute the peak, return early when the peak is below
0.0001, otherwise resample to 16000 Hz, encode to PCM16 and send. -/
def processFrame (ctxSampleRate : ℕ) (wsOpen : Bool) (st : PipelineState)
    (inputData : List ℚ) : PipelineState :=
  let st1 := { st with totalFrames := st.totalFrames + 1 }
  if framePeak inputData < 1 / 10000 then st1
  else
    let resampledData := resampleAudio inputData ctxSampleRate 16000
    let pcmData := float32ToPCM16 resampledData
    sendAudioToRobot wsOpen
      { st1 with resampleCalls := st1.resampleCalls + 1, encodeCalls := st1.encodeCalls + 1 }
      pcmData

/-- readyState of a WebSocket handle. -/
inductive WSReady where
  | connecting
  | openState
  | closing
  | closed
deriving DecidableEq

/-- State of the Relay Connection Manager: the current WebSocket handle if
any (an Option, so at most one handle exists at a time), the
isConnecting guard flag, and a count of the underlying connections
opened so far (one per WebSocket constructor call). -/
structure ConnState where
  ws : Option WSReady
  isConnecting : Bool
  opened : ℕ
deriving DecidableEq

/-- connectToRobot (RobotAudioBridge.tsx, lines 95-106): return without
doing anything when the current socket is OPEN or CONNECTING or the
isConnecting flag is set; otherwise set the flag and open a new
WebSocket, which starts in the CONNECTING state. -/
def connectToRobot (st : ConnState) : ConnState :=
  if st.ws = some WSReady.openState ∨ st.ws = some WSReady.connecting
      ∨ st.isConnecting = true then st
  else { ws := some WSReady.connecting, isConnecting := true, opened := st.opened + 1 }

/-- Strip leading and trailing whitespace, the behaviour of the
JavaScript trim method applied at App.tsx line 142. -/
def trimText (s : String) : String :=
  ⟨((s.data.dropWhile Char.isWhitespace).reverse.dropWhile Char.isWhitespace).reverse⟩

/-- One transcription entry as seen by the RobotTTSBridge component:
the participant identity and the utterance text. -/
structure TranscriptEvent where
  identity : String
  text : String
deriving DecidableEq

/-- State of the Transcript Debounce Relay (App.tsx, lines 120-191):
sentTextsRef, pendingTextRef, whether a debounce timer is armed, the
texts dispatched to the speech endpoint so far, and the log of dispatch
outcomes (the fetch promise callbacks only log, they change nothing
else). -/
structure TTSState where
  sentTexts : List String
  pendingText : String
  timerActive : Bool
  dispatches : List String
  dispatchLog : List (String × Bool)
deriving DecidableEq

/-- The relay state when the component mounts. -/
def initTTS : TTSState := ⟨[], "", false, [], []⟩

/-- The effect body of RobotTTSBridge (App.tsx, lines 127-187) for one
transcript update batch.  The effect cleanup of the previous run clears
any armed timer first; then the events are filtered to the remote
participant, only the last one is considered, its trimmed text is
ignored when empty or shorter than 2 characters or already sent, and
otherwise it becomes the pending text and the 1 second debounce timer is
restarted. -/
def onTranscriptUpdate (localIdentity : String) (st : TTSState)
    (transcriptions : List TranscriptEvent) : TTSState :=
  let st0 := { st with timerActive := false }
  let agentTranscriptions := transcriptions.filter fun t => t.identity != localIdentity
  match agentTranscriptions.getLast? with
  | none => st0
  | some latest =>
    let text := trimText latest.text
    if text = "" ∨ text.length < 2 then st0
    else if text ∈ st0.sentTexts then st0
    else { st0 with pendingText := text, timerActive := true }

/-- The debounce timer callback (App.tsx, lines 160-180): when the
pending text is nonempty and not sent yet, add it to sentTexts and
dispatch it; the outcome ok of the dispatch is only logged and never
undoes the bookkeeping, so a failed dispatch leaves the text marked as
sent. -/
def fireTimer (ok : Bool) (st : TTSState) : TTSState :=
  if st.pendingText ≠ "" ∧ st.pendingText ∉ st.sentTexts then
    { st with
      sentTexts := st.pendingText :: st.sentTexts
      dispatches := st.dispatches ++ [st.pendingText]
      dispatchLog := st.dispatchLog ++ [(st.pendingText, ok)]
      timerActive := false }
  else { st with timerActive := false }

/-- An event of the relay: a transcript update batch, or the expiry of
the armed debounce timer with the dispatch outcome ok. -/
inductive TTSEvent where
  | update (batch : List TranscriptEvent)
  | timerFire (ok : Bool)

/-- One step of the Transcript Debounce Relay.  A timer expiry only has
an effect while a timer is armed (a cleared timeout never runs). -/
def ttsStep (localIdentity : String) (st : TTSState) (e : TTSEvent) : TTSState :=
  match e with
  | TTSEvent.update batch => onTranscriptUpdate localIdentity st batch
  | TTSEvent.timerFire ok => if st.timerActive then fireTimer ok st else st

/-- C10: for every frame x and every rate r, resample with equal input and
output rates returns the input buffer unchanged (RobotAudioBridge.tsx,
lines 32-34). -/
theorem resample_identity (x : List ℚ) (r : ℕ) : resampleAudio x r r = x := by
  simp [resampleAudio]

/-- The output length computed by the resampler equals
floor(len * outputSampleRate / inputSampleRate). -/
lemma resampleOutLen_eq (len inputSampleRate outputSampleRate : ℕ) :
    resampleOutLen len inputSampleRate outputSampleRate
      = len * outputSampleRate / inputSampleRate := by
  unfold resampleOutLen
  rw [div_div_eq_mul_div, Int.floor_toNat]
  have h1 : (len : ℚ) * (outputSampleRate : ℚ) = ((len * outputSampleRate : ℕ) : ℚ) := by
    push_cast; ring
  rw [h1, Nat.floor_div_nat, Nat.floor_natCast]

/-- C3: for every input frame and every pair of rates with
inputSampleRate different from outputSampleRate, the length of the
resampled frame is floor(len(x) * outputSampleRate / inputSampleRate). -/
theorem resample_length_law (x : List ℚ) (inputSampleRate outputSampleRate : ℕ)
    (hne : inputSampleRate ≠ outputSampleRate) :
    (resampleAudio x inputSampleRate outputSampleRate).length
      = x.length * outputSampleRate / inputSampleRate := by
  rw [resampleAudio, if_neg hne]
  simp only [List.length_map, List.length_range]
  exact resampleOutLen_eq x.length inputSampleRate outputSampleRate

/-- C3 witness: a 3 sample frame resampled from 48000 Hz to 16000 Hz has
floor(3 * 16000 / 48000) = 1 sample. -/
theorem resample_length_law_witness :
    ((48000 : ℕ) ≠ 16000)
    ∧ (resampleAudio [(1 : ℚ), 2, 3] 48000 16000).length
        = [(1 : ℚ), 2, 3].length * 16000 / 48000 :=
  ⟨by decide, resample_length_law [(1 : ℚ), 2, 3] 48000 16000 (by decide)⟩

/-- Core bound for the resampler index safety: if i is below the computed
output length then both nearest-neighbour indices are inside the input. -/
lemma floor_index_bound (len i : ℕ) (q : ℚ) (hq : 0 < q)
    (hi : (i : ℤ) < ⌊(len : ℚ) / q⌋) :
    0 ≤ ⌊(i : ℚ) * q⌋ ∧ ⌊(i : ℚ) * q⌋ < (len : ℤ) ∧ 1 ≤ (len : ℤ) := by
  have h1 : ((i : ℤ) + 1) ≤ ⌊(len : ℚ) / q⌋ := by omega
  have h2 : ((i : ℚ) + 1) ≤ (len : ℚ) / q := by
    have := Int.le_floor.mp h1
    push_cast at this
    linarith
  have h3 : ((i : ℚ) + 1) * q ≤ (len : ℚ) := by
    have h4 := mul_le_mul_of_nonneg_right h2 hq.le
    rwa [div_mul_cancel₀ _ (ne_of_gt hq)] at h4
  have h5 : (i : ℚ) * q < (len : ℚ) := by nlinarith
  have h6 : (0 : ℚ) ≤ (i : ℚ) * q := mul_nonneg (by positivity) hq.le
  have h7 : 0 ≤ ⌊(i : ℚ) * q⌋ := Int.floor_nonneg.mpr h6
  have h8 : ⌊(i : ℚ) * q⌋ < (len : ℤ) := by
    apply Int.floor_lt.mpr
    push_cast
    exact h5
  have h9 : (0 : ℚ) < (len : ℚ) := by nlinarith
  have h10 : 0 < len := by exact_mod_cast h9
  exact ⟨h7, h8, by omega⟩

/-- C8: for every input frame (the empty frame included) and every pair of
positive sample rates, every index the resampler reads, namely
srcIndexFloor = floor(i * ratio) and
srcIndexCeil = min(srcIndexFloor + 1, length - 1) for each output index i
below the output length, lies within the bounds of the input frame, so the
resample function is total and never fails. -/
theorem resample_index_safe (input : List ℚ) (inputSampleRate outputSampleRate : ℕ)
    (hin : 0 < inputSampleRate) (hout : 0 < outputSampleRate) (i : ℕ)
    (hi : i < resampleOutLen input.length inputSampleRate outputSampleRate) :
    0 ≤ srcIndexFloor i inputSampleRate outputSampleRate
    ∧ srcIndexFloor i inputSampleRate outputSampleRate < (input.length : ℤ)
    ∧ 0 ≤ srcIndexCeil i input.length inputSampleRate outputSampleRate
    ∧ srcIndexCeil i input.length inputSampleRate outputSampleRate < (input.length : ℤ) := by
  have hq : (0 : ℚ) < (inputSampleRate : ℚ) / (outputSampleRate : ℚ) :=
    div_pos (by exact_mod_cast hin) (by exact_mod_cast hout)
  have hi' : (i : ℤ) < ⌊(input.length : ℚ) / ((inputSampleRate : ℚ) / (outputSampleRate : ℚ))⌋ := by
    have := hi
    unfold resampleOutLen at this
    omega
  obtain ⟨h7, h8, h9⟩ := floor_index_bound input.length i _ hq hi'
  have h7' : 0 ≤ srcIndexFloor i inputSampleRate outputSampleRate := h7
  have h8' : srcIndexFloor i inputSampleRate outputSampleRate < (input.length : ℤ) := h8
  refine ⟨h7', h8', ?_, ?_⟩
  · unfold srcIndexCeil
    exact le_min (by omega) (by omega)
  · unfold srcIndexCeil
    have hm := min_le_right (srcIndexFloor i inputSampleRate outputSampleRate + 1)
      ((input.length : ℤ) - 1)
    omega

/-- C8 witness: for a concrete 3 sample frame at rates 48000 and 16000 the
single output index 0 reads indices inside the frame. -/
theorem resample_index_safe_witness :
    ((0 : ℕ) < 48000 ∧ (0 : ℕ) < 16000
      ∧ 0 < resampleOutLen ([(0 : ℚ), 0, 0]).length 48000 16000)
    ∧ (0 ≤ srcIndexFloor 0 48000 16000
      ∧ srcIndexFloor 0 48000 16000 < (([(0 : ℚ), 0, 0]).length : ℤ)
      ∧ 0 ≤ srcIndexCeil 0 ([(0 : ℚ), 0, 0]).length 48000 16000
      ∧ srcIndexCeil 0 ([(0 : ℚ), 0, 0]).length 48000 16000 < (([(0 : ℚ), 0, 0]).length : ℤ)) :=
  ⟨⟨by decide, by decide, by norm_num [resampleOutLen]⟩,
   resample_index_safe [(0 : ℚ), 0, 0] 48000 16000 (by decide) (by decide) 0
     (by norm_num [resampleOutLen])⟩

/-- The clamped sample lies between -1 and 1. -/
lemma clampSample_mem (x : ℚ) : -1 ≤ clampSample x ∧ clampSample x ≤ 1 :=
  ⟨le_max_left _ _, max_le (by norm_num) (min_le_left _ _)⟩

/-- The stored 16 bit value always fits the signed 16 bit range. -/
lemma pcm16Value_bounds (x : ℚ) : -32768 ≤ pcm16Value x ∧ pcm16Value x ≤ 32767 := by
  obtain ⟨hs1, hs2⟩ := clampSample_mem x
  unfold pcm16Value scaleSample truncQ
  by_cases hneg : clampSample x < 0
  · have hval : clampSample x * 32768 < 0 := mul_neg_of_neg_of_pos hneg (by norm_num)
    rw [if_pos hneg, if_pos hval]
    constructor
    · have hlow : (-32768 : ℚ) ≤ clampSample x * 32768 := by nlinarith
      have := Int.le_ceil (clampSample x * 32768)
      have hc : (-32768 : ℚ) ≤ (⌈clampSample x * 32768⌉ : ℚ) := le_trans hlow this
      exact_mod_cast hc
    · have : ⌈clampSample x * 32768⌉ ≤ 0 := Int.ceil_le.mpr (by push_cast; linarith)
      omega
  · have hpos : (0 : ℚ) ≤ clampSample x := not_lt.mp hneg
    have hval : ¬ clampSample x * 32767 < 0 := not_lt.mpr (by positivity)
    rw [if_neg hneg, if_neg hval]
    constructor
    · have : (0 : ℤ) ≤ ⌊clampSample x * 32767⌋ := Int.floor_nonneg.mpr (by positivity)
      omega
    · have hup : clampSample x * 32767 ≤ 32767 := by nlinarith
      have := Int.floor_le (clampSample x * 32767)
      have hc : (⌊clampSample x * 32767⌋ : ℚ) ≤ 32767 := le_trans this hup
      exact_mod_cast hc

/-- Writing the 16 bit value through the two little endian bytes and
reading it back is the identity on the signed 16 bit range. -/
lemma decode_encode_bytes (v : ℤ) (h1 : -32768 ≤ v) (h2 : v ≤ 32767) :
    decodeInt16LE ((Int.toNat (v % 65536)) % 256)
      ((Int.toNat (v % 65536)) / 256) = v := by
  unfold decodeInt16LE
  split_ifs with h <;> omega

/-- Byte length of the encoded buffer: two bytes per sample. -/
lemma float32ToPCM16_length (xs : List ℚ) :
    (float32ToPCM16 xs).length = 2 * xs.length := by
  induction xs with
  | nil => simp [float32ToPCM16]
  | cons x rest ih =>
    simp only [float32ToPCM16, pcm16Bytes, List.length_append, List.length_cons,
      List.length_nil, ih]
    omega

/-- The two bytes at positions 2i and 2i+1 of the encoded buffer are the
two bytes of sample i. -/
lemma float32ToPCM16_getD (xs : List ℚ) (i : ℕ) (h : i < xs.length) :
    (float32ToPCM16 xs).getD (2 * i) 0
        = (Int.toNat (pcm16Value (xs.getD i 0) % 65536)) % 256
    ∧ (float32ToPCM16 xs).getD (2 * i + 1) 0
        = (Int.toNat (pcm16Value (xs.getD i 0) % 65536)) / 256 := by
  induction xs generalizing i with
  | nil => simp at h
  | cons x rest ih =>
    cases i with
    | zero => simp [float32ToPCM16, pcm16Bytes]
    | succ j =>
      have hj : j < rest.length := by simpa using h
      have e1 : 2 * (j + 1) = 2 * j + 1 + 1 := by omega
      rw [e1]
      simpa [float32ToPCM16, pcm16Bytes] using ih j hj

/-- C4: float32ToPCM16 produces exactly 2 bytes per sample, and the 16 bit
little endian signed value stored at position i is the i-th sample clamped
to the interval from -1 to 1 and scaled asymmetrically, a negative clamped
sample by 32768 and a nonnegative one by 32767, the scaled value converted
to an integer by truncation toward zero as DataView.setInt16 does. -/
theorem float32ToPCM16_spec (xs : List ℚ) (i : ℕ) (h : i < xs.length) :
    (float32ToPCM16 xs).length = 2 * xs.length
    ∧ decodeInt16LE ((float32ToPCM16 xs).getD (2 * i) 0)
        ((float32ToPCM16 xs).getD (2 * i + 1) 0)
      = truncQ (if clampSample (xs.getD i 0) < 0
                then clampSample (xs.getD i 0) * 32768
                else clampSample (xs.getD i 0) * 32767) := by
  obtain ⟨e1, e2⟩ := float32ToPCM16_getD xs i h
  refine ⟨float32ToPCM16_length xs, ?_⟩
  rw [e1, e2]
  obtain ⟨hb1, hb2⟩ := pcm16Value_bounds (xs.getD i 0)
  have hd := decode_encode_bytes (pcm16Value (xs.getD i 0)) hb1 hb2
  simpa [pcm16Value, scaleSample] using hd

/-- C4 witness: the singleton frame with sample 1/2 is encoded to two
bytes holding the truncation of 0.5 * 32767. -/
theorem float32ToPCM16_spec_witness :
    (0 < ([(1 : ℚ)/2]).length)
    ∧ ((float32ToPCM16 [(1 : ℚ)/2]).length = 2 * ([(1 : ℚ)/2]).length
      ∧ decodeInt16LE ((float32ToPCM16 [(1 : ℚ)/2]).getD (2 * 0) 0)
          ((float32ToPCM16 [(1 : ℚ)/2]).getD (2 * 0 + 1) 0)
        = truncQ (if clampSample (([(1 : ℚ)/2]).getD 0 0) < 0
                  then clampSample (([(1 : ℚ)/2]).getD 0 0) * 32768
                  else clampSample (([(1 : ℚ)/2]).getD 0 0) * 32767)) :=
  ⟨by decide, float32ToPCM16_spec [(1 : ℚ)/2] 0 (by decide)⟩

/-- C6: decoding the stored 16 bit value back to floating point differs
from the clamped input sample by at most 1/32767. -/
theorem pcm16_roundtrip (x : ℚ) :
    |decodePCM16 (pcm16Value x) - clampSample x| ≤ 1 / 32767 := by
  obtain ⟨hs1, hs2⟩ := clampSample_mem x
  unfold pcm16Value scaleSample truncQ decodePCM16
  by_cases hneg : clampSample x < 0
  · have hval : clampSample x * 32768 < 0 := mul_neg_of_neg_of_pos hneg (by norm_num)
    rw [if_pos hneg, if_pos hval]
    have hle := Int.le_ceil (clampSample x * 32768)
    have hlt := Int.ceil_lt_add_one (clampSample x * 32768)
    by_cases hv : ⌈clampSample x * 32768⌉ < 0
    · rw [if_pos hv]
      rw [abs_le]
      have hvq : ((⌈clampSample x * 32768⌉ : ℤ) : ℚ) < clampSample x * 32768 + 1 := hlt
      constructor <;> [skip; skip] <;> nlinarith [hle, hvq]
    · have hv0 : ⌈clampSample x * 32768⌉ = 0 := by
        have : ⌈clampSample x * 32768⌉ ≤ 0 := Int.ceil_le.mpr (by push_cast; linarith)
        omega
      rw [if_neg hv, hv0]
      rw [abs_le]
      have hvq : ((0 : ℤ) : ℚ) < clampSample x * 32768 + 1 := by rw [← hv0]; exact hlt
      push_cast at hvq ⊢
      constructor <;> nlinarith
  · have hpos : (0 : ℚ) ≤ clampSample x := not_lt.mp hneg
    have hval : ¬ clampSample x * 32767 < 0 := not_lt.mpr (by positivity)
    rw [if_neg hneg, if_neg hval]
    have hle := Int.floor_le (clampSample x * 32767)
    have hlt := Int.lt_floor_add_one (clampSample x * 32767)
    have hv : ¬ ⌊clampSample x * 32767⌋ < 0 :=
      not_lt.mpr (Int.floor_nonneg.mpr (by positivity))
    rw [if_neg hv]
    rw [abs_le]
    have hvq : clampSample x * 32767 < (⌊clampSample x * 32767⌋ : ℚ) + 1 := hlt
    constructor <;> nlinarith [hle, hvq]

/-- C7: the byte counter is monotonic and grows by exactly the byte length
of each transmitted buffer, and for a transmitted buffer smaller than
51200 bytes a telemetry checkpoint is emitted by that send if and only if
the send makes the counter cross a multiple of 51200, that is,
floor(bytesSent / 51200) increases. -/
theorem byteCounter_checkpoint (st : PipelineState) (pcmData : List ℕ)
    (h : pcmData.length < 51200) :
    st.bytesSent ≤ (sendAudioToRobot true st pcmData).bytesSent
    ∧ (sendAudioToRobot true st pcmData).bytesSent = st.bytesSent + pcmData.length
    ∧ ((sendAudioToRobot true st pcmData).checkpoints ≠ st.checkpoints
        ↔ st.bytesSent / 51200 < (st.bytesSent + pcmData.length) / 51200) := by
  refine ⟨?_, ?_, ?_⟩
  · simp [sendAudioToRobot]
  · simp [sendAudioToRobot]
  · by_cases hc : (st.bytesSent + pcmData.length) % 51200 < pcmData.length
    · simp only [sendAudioToRobot, if_pos rfl, if_pos hc]
      constructor
      · intro _
        omega
      · intro _
        intro heq
        have := congrArg List.length heq
        simp at this
    · simp only [sendAudioToRobot, if_pos rfl, if_neg hc]
      constructor
      · intro hne
        exact absurd rfl hne
      · intro hlt
        omega

/-- C7 witness: from 51199 bytes already sent, a 2 byte buffer crosses the
first 51200 byte boundary and emits a checkpoint. -/
theorem byteCounter_checkpoint_witness :
    (([7, 7] : List ℕ).length < 51200)
    ∧ ((⟨51199, [], [], 0, 0, 0⟩ : PipelineState).bytesSent
          ≤ (sendAudioToRobot true ⟨51199, [], [], 0, 0, 0⟩ [7, 7]).bytesSent
      ∧ (sendAudioToRobot true ⟨51199, [], [], 0, 0, 0⟩ [7, 7]).bytesSent
          = (⟨51199, [], [], 0, 0, 0⟩ : PipelineState).bytesSent + ([7, 7] : List ℕ).length
      ∧ ((sendAudioToRobot true ⟨51199, [], [], 0, 0, 0⟩ [7, 7]).checkpoints
            ≠ (⟨51199, [], [], 0, 0, 0⟩ : PipelineState).checkpoints
          ↔ (⟨51199, [], [], 0, 0, 0⟩ : PipelineState).bytesSent / 51200
              < ((⟨51199, [], [], 0, 0, 0⟩ : PipelineState).bytesSent
                  + ([7, 7] : List ℕ).length) / 51200)) :=
  ⟨by decide, byteCounter_checkpoint ⟨51199, [], [], 0, 0, 0⟩ [7, 7] (by decide)⟩

/-- C2 amended: for every captured frame whose peak amplitude is strictly
below 0.0001, the pipeline performs no resample call, no encode call and
no send call, and the cumulative byte counter is unchanged. -/
theorem silence_gate_skip (ctxSampleRate : ℕ) (wsOpen : Bool) (st : PipelineState)
    (inputData : List ℚ) (h : framePeak inputData < 1 / 10000) :
    (processFrame ctxSampleRate wsOpen st inputData).resampleCalls = st.resampleCalls
    ∧ (processFrame ctxSampleRate wsOpen st inputData).encodeCalls = st.encodeCalls
    ∧ (processFrame ctxSampleRate wsOpen st inputData).sends = st.sends
    ∧ (processFrame ctxSampleRate wsOpen st inputData).bytesSent = st.bytesSent := by
  simp only [processFrame]
  rw [if_pos h]
  exact ⟨rfl, rfl, rfl, rfl⟩

/-- C2 witness: the all zero one sample frame has peak 0 and is skipped
entirely from the initial pipeline state. -/
theorem silence_gate_skip_witness :
    (framePeak [(0 : ℚ)] < 1 / 10000)
    ∧ ((processFrame 48000 true initPipeline [(0 : ℚ)]).resampleCalls
          = initPipeline.resampleCalls
      ∧ (processFrame 48000 true initPipeline [(0 : ℚ)]).encodeCalls
          = initPipeline.encodeCalls
      ∧ (processFrame 48000 true initPipeline [(0 : ℚ)]).sends = initPipeline.sends
      ∧ (processFrame 48000 true initPipeline [(0 : ℚ)]).bytesSent
          = initPipeline.bytesSent) :=
  ⟨by norm_num [framePeak], silence_gate_skip 48000 true initPipeline [(0 : ℚ)]
    (by norm_num [framePeak])⟩

/-- C2 counterexample: the one sample frame with sample 1/10000 = 0.0001
lies entirely within the closed interval from -0.0001 to 0.0001 (its peak
does not exceed the threshold), yet the pipeline resamples, encodes and
sends it, because the source gate skips only when the peak is strictly
below the threshold. -/
theorem silence_gate_cex :
    (∀ x ∈ [(1 : ℚ)/10000], -(1/10000) ≤ x ∧ x ≤ 1/10000)
    ∧ (processFrame 48000 true initPipeline [(1 : ℚ)/10000]).resampleCalls
        = initPipeline.resampleCalls + 1
    ∧ (processFrame 48000 true initPipeline [(1 : ℚ)/10000]).encodeCalls
        = initPipeline.encodeCalls + 1
    ∧ (processFrame 48000 true initPipeline [(1 : ℚ)/10000]).sends ≠ initPipeline.sends := by
  have hpeak : framePeak [(1 : ℚ)/10000] = 1/10000 := by
    simp only [framePeak, List.foldl_cons, List.foldl_nil]
    rw [abs_of_pos (by norm_num)]
    exact max_eq_right (by norm_num)
  have hnot : ¬ framePeak [(1 : ℚ)/10000] < 1 / 10000 := by
    rw [hpeak]
    exact lt_irrefl _
  refine ⟨?_, ?_, ?_, ?_⟩
  · intro x hx
    simp at hx
    subst hx
    constructor <;> norm_num
  · simp only [processFrame]
    rw [if_neg hnot]
    rfl
  · simp only [processFrame]
    rw [if_neg hnot]
    rfl
  · simp only [processFrame]
    rw [if_neg hnot]
    simp [sendAudioToRobot, initPipeline]

/-- C5: calling connect while the connection is already Connecting or
Connected is a no-op, a second connect immediately after a first one
changes nothing, and two connect calls in immediate succession open at
most one underlying connection beyond those already opened; the state
holds at most one connection handle by construction (an Option field). -/
theorem connect_idem (st : ConnState) :
    ((st.ws = some WSReady.openState ∨ st.ws = some WSReady.connecting
        ∨ st.isConnecting = true) → connectToRobot st = st)
    ∧ connectToRobot (connectToRobot st) = connectToRobot st
    ∧ (connectToRobot (connectToRobot st)).opened ≤ st.opened + 1 := by
  have hguard : ∀ s : ConnState,
      (s.ws = some WSReady.openState ∨ s.ws = some WSReady.connecting
        ∨ s.isConnecting = true) → connectToRobot s = s := by
    intro s hs
    simp only [connectToRobot, if_pos hs]
  refine ⟨hguard st, ?_, ?_⟩
  · by_cases h : st.ws = some WSReady.openState ∨ st.ws = some WSReady.connecting
        ∨ st.isConnecting = true
    · rw [hguard st h, hguard st h]
    · have e : connectToRobot st
          = { ws := some WSReady.connecting, isConnecting := true, opened := st.opened + 1 } := by
        simp only [connectToRobot, if_neg h]
      rw [e, hguard _ (Or.inr (Or.inl rfl))]
  · by_cases h : st.ws = some WSReady.openState ∨ st.ws = some WSReady.connecting
        ∨ st.isConnecting = true
    · rw [hguard st h, hguard st h]
      omega
    · have e : connectToRobot st
          = { ws := some WSReady.connecting, isConnecting := true, opened := st.opened + 1 } := by
        simp only [connectToRobot, if_neg h]
      rw [e, hguard _ (Or.inr (Or.inl rfl))]

/-- C5 witness: a connect from an already connecting state changes
nothing, and a double connect from the fresh disconnected state opens at
most one connection. -/
theorem connect_idem_witness :
    connectToRobot ⟨some WSReady.connecting, true, 5⟩ = ⟨some WSReady.connecting, true, 5⟩
    ∧ (connectToRobot (connectToRobot ⟨none, false, 0⟩)).opened
        ≤ (⟨none, false, 0⟩ : ConnState).opened + 1 :=
  ⟨(connect_idem ⟨some WSReady.connecting, true, 5⟩).1 (Or.inr (Or.inl rfl)),
   (connect_idem ⟨none, false, 0⟩).2.2⟩

/-- A transcript update never changes sentTexts and never dispatches. -/
lemma update_keeps (localIdentity : String) (st : TTSState) (ts : List TranscriptEvent) :
    (onTranscriptUpdate localIdentity st ts).sentTexts = st.sentTexts
    ∧ (onTranscriptUpdate localIdentity st ts).dispatches = st.dispatches := by
  simp only [onTranscriptUpdate]
  cases hl : (List.filter (fun t => t.identity != localIdentity) ts).getLast? with
  | none => exact ⟨rfl, rfl⟩
  | some latest =>
    dsimp only
    split_ifs <;> exact ⟨rfl, rfl⟩

/-- Each step can only extend sentTexts. -/
lemma sentTexts_mono (localIdentity : String) (st : TTSState) (e : TTSEvent) :
    st.sentTexts ⊆ (ttsStep localIdentity st e).sentTexts := by
  cases e with
  | update batch =>
    have h := (update_keeps localIdentity st batch).1
    intro a ha
    rw [show ttsStep localIdentity st (TTSEvent.update batch)
        = onTranscriptUpdate localIdentity st batch from rfl, h]
    exact ha
  | timerFire ok =>
    dsimp only [ttsStep]
    split_ifs with ht
    · unfold fireTimer
      split_ifs with hg
      · exact fun a ha => List.mem_cons_of_mem _ ha
      · exact fun a ha => ha
    · exact fun a ha => ha

/-- Each step either dispatches nothing or dispatches exactly one text
that is simultaneously recorded in sentTexts. -/
lemma dispatch_shape (localIdentity : String) (st : TTSState) (e : TTSEvent) :
    (ttsStep localIdentity st e).dispatches = st.dispatches
    ∨ ∃ t, (ttsStep localIdentity st e).dispatches = st.dispatches ++ [t]
        ∧ t ∈ (ttsStep localIdentity st e).sentTexts := by
  cases e with
  | update batch => exact Or.inl (update_keeps localIdentity st batch).2
  | timerFire ok =>
    dsimp only [ttsStep]
    split_ifs with ht
    · unfold fireTimer
      split_ifs with hg
      · exact Or.inr ⟨st.pendingText, rfl, List.mem_cons_self _ _⟩
      · exact Or.inl rfl
    · exact Or.inl rfl

/-- The number of dispatches of a text T never exceeds one, and is zero
while T is not in sentTexts: this bound is preserved by every step. -/
lemma countBound_step (localIdentity T : String) (st : TTSState) (e : TTSEvent)
    (h : st.dispatches.count T ≤ if T ∈ st.sentTexts then 1 else 0) :
    (ttsStep localIdentity st e).dispatches.count T
      ≤ if T ∈ (ttsStep localIdentity st e).sentTexts then 1 else 0 := by
  cases e with
  | update batch =>
    obtain ⟨h1, h2⟩ := update_keeps localIdentity st batch
    rw [show ttsStep localIdentity st (TTSEvent.update batch)
        = onTranscriptUpdate localIdentity st batch from rfl, h1, h2]
    exact h
  | timerFire ok =>
    dsimp only [ttsStep]
    by_cases ht : st.timerActive = true
    · rw [if_pos ht]
      by_cases hg : st.pendingText ≠ "" ∧ st.pendingText ∉ st.sentTexts
      · have e : fireTimer ok st
            = { st with
                sentTexts := st.pendingText :: st.sentTexts
                dispatches := st.dispatches ++ [st.pendingText]
                dispatchLog := st.dispatchLog ++ [(st.pendingText, ok)]
                timerActive := false } := by
          unfold fireTimer
          rw [if_pos hg]
        rw [e]
        dsimp only
        rw [List.count_append]
        by_cases hT : st.pendingText = T
        · have hnot : T ∉ st.sentTexts := hT ▸ hg.2
          have h0 : st.dispatches.count T = 0 := by
            rw [if_neg hnot] at h
            omega
          have hmem : T ∈ st.pendingText :: st.sentTexts := by
            rw [hT]
            exact List.mem_cons_self _ _
          rw [if_pos hmem, h0]
          have hc1 : List.count T [st.pendingText] = 1 := by
            rw [hT]
            simp
          omega
        · have hc : List.count T [st.pendingText] = 0 :=
            List.count_eq_zero.mpr (by
              intro hm
              simp at hm
              exact hT hm.symm)
          by_cases hmem : T ∈ st.sentTexts
          · have hm2 : T ∈ st.pendingText :: st.sentTexts := List.mem_cons_of_mem _ hmem
            rw [if_pos hm2]
            rw [if_pos hmem] at h
            omega
          · have hm2 : T ∉ st.pendingText :: st.sentTexts := by
              intro hx
              rcases List.mem_cons.mp hx with h1 | h2
              · exact hT h1.symm
              · exact hmem h2
            rw [if_neg hm2]
            rw [if_neg hmem] at h
            omega
      · have e : fireTimer ok st = { st with timerActive := false } := by
          unfold fireTimer
          rw [if_neg hg]
        rw [e]
        exact h
    · rw [if_neg ht]
      exact h

/-- The count bound is preserved by any run of the relay. -/
lemma countBound_run (localIdentity T : String) (events : List TTSEvent) (st : TTSState)
    (h : st.dispatches.count T ≤ if T ∈ st.sentTexts then 1 else 0) :
    (events.foldl (ttsStep localIdentity) st).dispatches.count T
      ≤ if T ∈ (events.foldl (ttsStep localIdentity) st).sentTexts then 1 else 0 := by
  induction events generalizing st with
  | nil => exact h
  | cons e rest ih => exact ih _ (countBound_step localIdentity T st e h)

/-- C1: the Transcript Debounce Relay dispatches every distinct text at
most once.  SentTextSet only grows at every step; a transcript update by
itself never dispatches; the dispatch outcome (success or failure) never
changes sentTexts or the dispatch list, so a failed dispatch does not
remove the text and is never retried; whenever a step dispatches, the
dispatched text is recorded in sentTexts at the same step; and over any
event sequence from the initial state a given text T is dispatched at
most once. -/
theorem tts_at_most_once (localIdentity T : String) (st : TTSState) (e : TTSEvent)
    (batch : List TranscriptEvent) (events : List TTSEvent) :
    st.sentTexts ⊆ (ttsStep localIdentity st e).sentTexts
    ∧ (ttsStep localIdentity st (TTSEvent.update batch)).dispatches = st.dispatches
    ∧ (ttsStep localIdentity st (TTSEvent.timerFire false)).sentTexts
        = (ttsStep localIdentity st (TTSEvent.timerFire true)).sentTexts
    ∧ (ttsStep localIdentity st (TTSEvent.timerFire false)).dispatches
        = (ttsStep localIdentity st (TTSEvent.timerFire true)).dispatches
    ∧ ((ttsStep localIdentity st e).dispatches = st.dispatches
        ∨ ∃ t, (ttsStep localIdentity st e).dispatches = st.dispatches ++ [t]
            ∧ t ∈ (ttsStep localIdentity st e).sentTexts)
    ∧ (events.foldl (ttsStep localIdentity) initTTS).dispatches.count T ≤ 1 := by
  refine ⟨sentTexts_mono localIdentity st e, (update_keeps localIdentity st batch).2,
    ?_, ?_, dispatch_shape localIdentity st e, ?_⟩
  · dsimp only [ttsStep]
    by_cases ht : st.timerActive = true
    · rw [if_pos ht, if_pos ht]
      unfold fireTimer
      split_ifs <;> rfl
    · rw [if_neg ht, if_neg ht]
  · dsimp only [ttsStep]
    by_cases ht : st.timerActive = true
    · rw [if_pos ht, if_pos ht]
      unfold fireTimer
      split_ifs <;> rfl
    · rw [if_neg ht, if_neg ht]
  · have h0 : initTTS.dispatches.count T ≤ if T ∈ initTTS.sentTexts then 1 else 0 := by
      simp [initTTS]
    have hrun := countBound_run localIdentity T events initTTS h0
    by_cases hmem : T ∈ (events.foldl (ttsStep localIdentity) initTTS).sentTexts
    · rw [if_pos hmem] at hrun
      exact hrun
    · rw [if_neg hmem] at hrun
      omega

/-- Characterization of one transcript update whose filtered batch ends
with the event latest. -/
lemma onTranscriptUpdate_eq (localIdentity : String) (st : TTSState)
    (ts : List TranscriptEvent) (latest : TranscriptEvent)
    (hl : (List.filter (fun t => t.identity != localIdentity) ts).getLast? = some latest) :
    onTranscriptUpdate localIdentity st ts =
      if trimText latest.text = "" ∨ (trimText latest.text).length < 2 then
        { st with timerActive := false }
      else if trimText latest.text ∈ st.sentTexts then { st with timerActive := false }
      else { st with pendingText := trimText latest.text, timerActive := true } := by
  simp only [onTranscriptUpdate]
  rw [hl]

/-- C9 amended: if the latest remote-participant event of a transcript
update batch has a trimmed text that is empty or shorter than 2
characters, the relay ignores it: no pending text is recorded and no
debounce timer is armed (the previous timer having been cleared by the
effect cleanup); if the trimmed text has at least 2 characters and was
not sent before, it becomes the pending text and the debounce timer is
armed. -/
theorem tts_length_filter (localIdentity : String) (st : TTSState)
    (ts : List TranscriptEvent) (latest : TranscriptEvent)
    (hl : (List.filter (fun t => t.identity != localIdentity) ts).getLast? = some latest) :
    ((trimText latest.text).length < 2 →
      onTranscriptUpdate localIdentity st ts = { st with timerActive := false })
    ∧ (2 ≤ (trimText latest.text).length → trimText latest.text ∉ st.sentTexts →
      (onTranscriptUpdate localIdentity st ts).pendingText = trimText latest.text
      ∧ (onTranscriptUpdate localIdentity st ts).timerActive = true) := by
  rw [onTranscriptUpdate_eq localIdentity st ts latest hl]
  constructor
  · intro hlen
    rw [if_pos (Or.inr hlen)]
  · intro hlen hmem
    have hc1 : ¬ (trimText latest.text = "" ∨ (trimText latest.text).length < 2) := by
      push_neg
      refine ⟨?_, by omega⟩
      intro he
      rw [he] at hlen
      simp at hlen
    rw [if_neg hc1, if_neg hmem]
    exact ⟨rfl, rfl⟩

/-- C9 witness: the batch containing the single remote event with text
"hello" records "hello" as pending and arms the timer. -/
theorem tts_length_filter_witness :
    ((List.filter (fun t => t.identity != "me") [({ identity := "agent", text := "hello" } : TranscriptEvent)]).getLast?
        = some { identity := "agent", text := "hello" }
      ∧ 2 ≤ (trimText ({ identity := "agent", text := "hello" } : TranscriptEvent).text).length
      ∧ trimText ({ identity := "agent", text := "hello" } : TranscriptEvent).text ∉ initTTS.sentTexts)
    ∧ ((onTranscriptUpdate "me" initTTS [({ identity := "agent", text := "hello" } : TranscriptEvent)]).pendingText
        = trimText ({ identity := "agent", text := "hello" } : TranscriptEvent).text
      ∧ (onTranscriptUpdate "me" initTTS [({ identity := "agent", text := "hello" } : TranscriptEvent)]).timerActive
        = true) :=
  ⟨⟨by decide, by decide, by decide⟩,
   (tts_length_filter "me" initTTS [{ identity := "agent", text := "hello" }]
      { identity := "agent", text := "hello" } (by decide)).2 (by decide) (by decide)⟩

/-- C9 counterexample: the remote event text " a " is neither empty nor
shorter than 2 characters (it has 3), and is absent from SentTextSet, so
by the claim it should be eligible and start the debounce; but the code
trims it to "a" of length 1 and ignores it: no pending text is recorded
and no timer is armed. -/
theorem tts_length_filter_cex :
    (" a " ≠ "" ∧ ¬ (" a ".length < 2)
      ∧ " a " ∉ initTTS.sentTexts)
    ∧ (onTranscriptUpdate "me" initTTS [({ identity := "agent", text := " a " } : TranscriptEvent)]).pendingText = ""
    ∧ (onTranscriptUpdate "me" initTTS [({ identity := "agent", text := " a " } : TranscriptEvent)]).timerActive = false := by
  refine ⟨⟨by decide, by decide, by decide⟩, by decide, by decide⟩

end MediaRelay
